import Mathlib

/-!
Verification of the SEM-Planner keyword tool (src/keyword_tool.py).

Strings are modelled as `List Char`; Python's `str.lower()` becomes a
character-wise `Char.toLower` map, `a in b` (substring test) becomes
`isSubstr`, and `str.split()` becomes `splitWords` (split on whitespace,
dropping empty pieces).  Monetary values (`micros / 1000000`) are modelled
in `ℚ`, which preserves all order comparisons of the Python floats involved.
-/

/-- Strings of the Python program, as lists of characters. -/
abbrev Str := List Char

/-- Python `s.lower()`: character-wise lowercasing. -/
def lowerStr (s : Str) : Str := s.map Char.toLower

/-- Python `needle in hay`: contiguous-substring test (empty needle always
matches, as in Python). -/
def isSubstr : Str → Str → Bool
  | needle, [] => needle.isEmpty
  | needle, c :: rest => needle.isPrefixOf (c :: rest) || isSubstr needle rest

/-- Python `s.split()` helper: accumulates the current word (reversed). -/
def splitWordsAux : List Char → List Char → List (List Char)
  | [], acc => if acc.isEmpty then [] else [acc.reverse]
  | c :: rest, acc =>
    if c.isWhitespace then
      if acc.isEmpty then splitWordsAux rest [] else acc.reverse :: splitWordsAux rest []
    else splitWordsAux rest (c :: acc)

/-- Python `s.split()`: split on whitespace runs, no empty words. -/
def splitWords (s : Str) : List Str := splitWordsAux s []

/-- Rule 3 result expression of `get_ad_group_for_keyword`:
`next((theme for theme in llm_themes if "local" in theme.lower() or
"near" in theme.lower()), "Location-Based Terms")`. -/
def locationTheme (llm_themes : List Str) : Str :=
  (llm_themes.find? (fun theme =>
    isSubstr "local".toList (lowerStr theme) || isSubstr "near".toList (lowerStr theme))).getD
    "Location-Based Terms".toList

/-- Rule 4 result expression of `get_ad_group_for_keyword`:
`next((theme for theme in llm_themes if "informational" in theme.lower() or
"question" in theme.lower()), "Informational & Long-Tail")`. -/
def infoTheme (llm_themes : List Str) : Str :=
  (llm_themes.find? (fun theme =>
    isSubstr "informational".toList (lowerStr theme) ||
      isSubstr "question".toList (lowerStr theme))).getD
    "Informational & Long-Tail".toList

/-- Rule 5 triggers of a theme:
`[word for word in theme.lower().split() if len(word) > 2]`. -/
def themeTriggers (theme : Str) : List Str :=
  (splitWords (lowerStr theme)).filter (fun word => decide (2 < word.length))

/-- Rule 5 loop of `get_ad_group_for_keyword`: first theme (in list order)
one of whose triggers occurs in the lowercased keyword. -/
def findThemeMatch (kw_lower : Str) : List Str → Option Str
  | [] => none
  | theme :: rest =>
    if (themeTriggers theme).any (fun trigger => isSubstr trigger kw_lower) then some theme
    else findThemeMatch kw_lower rest

/-- `get_ad_group_for_keyword` from src/keyword_tool.py: first-match-wins
rule sequence assigning a keyword to an ad-group bucket. -/
def get_ad_group_for_keyword (keyword brand_name : Str)
    (competitor_names locations llm_themes : List Str) : Str :=
  let kw_lower := lowerStr keyword
  if isSubstr (lowerStr brand_name) kw_lower then
    "Brand Terms".toList
  else if competitor_names.any (fun competitor => isSubstr (lowerStr competitor) kw_lower) then
    "Competitor Terms".toList
  else if locations.any (fun loc => isSubstr (lowerStr loc) kw_lower)
      || ["near me".toList, "nearby".toList].any (fun trig => isSubstr trig kw_lower) then
    locationTheme llm_themes
  else if ["best".toList, "what is".toList, "how to".toList].any
      (fun trig => isSubstr trig kw_lower) then
    infoTheme llm_themes
  else
    match findThemeMatch kw_lower llm_themes with
    | some theme => theme
    | none => "General Product & Category Terms".toList

/-- The empty string is a substring of every string, as in Python. -/
theorem isSubstr_nil (hay : Str) : isSubstr [] hay = true := by
  cases hay with
  | nil => rfl
  | cons c rest => simp [isSubstr, List.isPrefixOf]

/-- C1: any keyword containing the brand name as a case-insensitive substring
is classified "Brand Terms", whatever the competitor names, locations and
themes are: rule 1 outranks every other rule. -/
theorem brand_rule_wins (keyword brand_name : Str)
    (competitor_names locations llm_themes : List Str)
    (h : isSubstr (lowerStr brand_name) (lowerStr keyword) = true) :
    get_ad_group_for_keyword keyword brand_name competitor_names locations llm_themes
      = "Brand Terms".toList := by
  simp [get_ad_group_for_keyword, h]

/-- Witness for C1: the spec scenario keyword "BrandX running shoes" with
brand "BrandX" lands in "Brand Terms". -/
theorem brand_rule_wins_witness :
    isSubstr (lowerStr "BrandX".toList) (lowerStr "BrandX running shoes".toList) = true ∧
    get_ad_group_for_keyword "BrandX running shoes".toList "BrandX".toList
      ["CompY".toList] ["Austin".toList] ["Local Deals".toList] = "Brand Terms".toList :=
  ⟨by decide, brand_rule_wins _ _ _ _ _ (by decide)⟩

/-- C9: with an empty brand name every keyword is classified "Brand Terms",
because the empty string is a substring of every string. -/
theorem empty_brand_all_brand_terms (keyword : Str)
    (competitor_names locations llm_themes : List Str) :
    get_ad_group_for_keyword keyword [] competitor_names locations llm_themes
      = "Brand Terms".toList := by
  simp [get_ad_group_for_keyword, lowerStr, isSubstr_nil]

/-- C2: a keyword matching the rule-3 location condition and a rule-5 theme
trigger, but neither brand nor competitor, is classified by rule 3
(first "local"/"near" theme, else "Location-Based Terms"), never by rule 5. -/
theorem location_rule_beats_theme_rule (keyword brand_name : Str)
    (competitor_names locations llm_themes : List Str)
    (hbrand : isSubstr (lowerStr brand_name) (lowerStr keyword) = false)
    (hcomp : competitor_names.any
      (fun competitor => isSubstr (lowerStr competitor) (lowerStr keyword)) = false)
    (hloc : (locations.any (fun loc => isSubstr (lowerStr loc) (lowerStr keyword))
      || ["near me".toList, "nearby".toList].any
        (fun trig => isSubstr trig (lowerStr keyword))) = true)
    (_htheme : ∃ theme ∈ llm_themes, ∃ trigger ∈ themeTriggers theme,
      isSubstr trigger (lowerStr keyword) = true) :
    get_ad_group_for_keyword keyword brand_name competitor_names locations llm_themes
      = locationTheme llm_themes := by
  simp only [get_ad_group_for_keyword, hbrand, hcomp, hloc]
  simp

/-- Witness for C2: "best running shoes near me" matches the location
condition ("near me") and a trigger of theme "Running Gear", yet is
classified by rule 3. -/
theorem location_rule_beats_theme_rule_witness :
    get_ad_group_for_keyword "best running shoes near me".toList "BrandX".toList
      ["CompY".toList] ["Austin".toList] ["Running Gear".toList]
      = locationTheme ["Running Gear".toList] :=
  location_rule_beats_theme_rule _ _ _ _ _ (by decide) (by decide) (by decide) (by decide)

/-- Rule 3 yields either the fallback name or a member of the theme list. -/
theorem locationTheme_mem (llm_themes : List Str) :
    locationTheme llm_themes = "Location-Based Terms".toList ∨
      locationTheme llm_themes ∈ llm_themes := by
  unfold locationTheme
  cases h : llm_themes.find? (fun theme =>
      isSubstr "local".toList (lowerStr theme) || isSubstr "near".toList (lowerStr theme)) with
  | none => left; rfl
  | some t => right; simpa using List.mem_of_find?_eq_some h

/-- Rule 4 yields either the fallback name or a member of the theme list. -/
theorem infoTheme_mem (llm_themes : List Str) :
    infoTheme llm_themes = "Informational & Long-Tail".toList ∨
      infoTheme llm_themes ∈ llm_themes := by
  unfold infoTheme
  cases h : llm_themes.find? (fun theme =>
      isSubstr "informational".toList (lowerStr theme) ||
        isSubstr "question".toList (lowerStr theme)) with
  | none => left; rfl
  | some t => right; simpa using List.mem_of_find?_eq_some h

/-- Rule 5 yields a member of the theme list when it fires. -/
theorem findThemeMatch_mem (kw_lower : Str) (llm_themes : List Str) (t : Str)
    (h : findThemeMatch kw_lower llm_themes = some t) : t ∈ llm_themes := by
  induction llm_themes with
  | nil => simp [findThemeMatch] at h
  | cons theme rest ih =>
    by_cases hc : ((themeTriggers theme).any
        (fun trigger => isSubstr trigger kw_lower)) = true
    · simp [findThemeMatch, hc] at h
      simp [h]
    · simp [findThemeMatch, hc] at h
      exact List.mem_cons_of_mem _ (ih h)

/-- C10: the classifier always returns one of the five fixed bucket names or
an element of the supplied theme list (with its original casing); it is a
total function with no other possible output. -/
theorem classify_closed_range (keyword brand_name : Str)
    (competitor_names locations llm_themes : List Str) :
    get_ad_group_for_keyword keyword brand_name competitor_names locations llm_themes ∈
        ["Brand Terms".toList, "Competitor Terms".toList, "Location-Based Terms".toList,
          "Informational & Long-Tail".toList, "General Product & Category Terms".toList] ∨
      get_ad_group_for_keyword keyword brand_name competitor_names locations llm_themes
        ∈ llm_themes := by
  simp only [get_ad_group_for_keyword]
  split_ifs with h1 h2 h3 h4
  · left; simp
  · left; simp
  · rcases locationTheme_mem llm_themes with h | h
    · left; simp [h]
    · right; exact h
  · rcases infoTheme_mem llm_themes with h | h
    · left; simp [h]
    · right; exact h
  · cases h : findThemeMatch (lowerStr keyword) llm_themes with
    | none => left; simp [h]
    | some t => right; simp [h]; exact findThemeMatch_mem _ _ _ h

/-- Metrics attached to a keyword idea by the Idea Source.  `avg_monthly_searches`
is optional (the code guards it with `or 0`); the two bid fields are micros,
where `0` is the falsy/absent value tested by `if metrics.low_top_of_page_bid_micros`. -/
structure KeywordIdeaMetrics where
  avg_monthly_searches : Option Nat
  competition_name : Str
  low_top_of_page_bid_micros : Nat
  high_top_of_page_bid_micros : Nat
  deriving DecidableEq

/-- A keyword idea record as consumed by the pipeline. -/
structure KeywordIdea where
  text : Str
  keyword_idea_metrics : KeywordIdeaMetrics
  deriving DecidableEq

/-- Python `x or 0` on the optional volume: absent (or zero) becomes 0. -/
def orZero : Option Nat → Nat
  | none => 0
  | some n => n

/-- The volume filter (line 127 of src/keyword_tool.py):
`[idea for idea in raw_ideas if (idea.keyword_idea_metrics.avg_monthly_searches or 0) >= min_volume]`. -/
def filtered_ideas (raw_ideas : List KeywordIdea) (min_volume : Int) : List KeywordIdea :=
  raw_ideas.filter
    (fun idea => decide (min_volume ≤ (orZero idea.keyword_idea_metrics.avg_monthly_searches : Int)))

/-- C4: the volume filter returns the sub-sequence, in original order, of
exactly the ideas whose (missing-treated-as-0) volume is at least the
threshold: it is a sublist of the input, every kept idea meets the threshold,
and every idea meeting the threshold is kept with its full multiplicity.
Being a total Lean function, it has no side effects and cannot fail. -/
theorem filtered_ideas_spec (raw_ideas : List KeywordIdea) (min_volume : Int)
    (_h : 0 ≤ min_volume) :
    (filtered_ideas raw_ideas min_volume).Sublist raw_ideas ∧
    (∀ idea ∈ filtered_ideas raw_ideas min_volume,
      min_volume ≤ (orZero idea.keyword_idea_metrics.avg_monthly_searches : Int)) ∧
    (∀ idea : KeywordIdea,
      min_volume ≤ (orZero idea.keyword_idea_metrics.avg_monthly_searches : Int) →
      (filtered_ideas raw_ideas min_volume).count idea = raw_ideas.count idea) := by
  refine ⟨List.filter_sublist _, ?_, ?_⟩
  · intro idea hmem
    have := List.of_mem_filter hmem
    simpa using this
  · intro idea hidea
    exact List.count_filter (by simpa using hidea)

/-- A concrete idea used by witnesses: volume 500, bids 1.0 and 2.0 units. -/
def sampleIdeaHigh : KeywordIdea :=
  { text := "running shoes".toList
    keyword_idea_metrics :=
      { avg_monthly_searches := some 500
        competition_name := "LOW".toList
        low_top_of_page_bid_micros := 1000000
        high_top_of_page_bid_micros := 2000000 } }

/-- A concrete idea with absent volume, used by witnesses. -/
def sampleIdeaNoVolume : KeywordIdea :=
  { text := "obscure model number".toList
    keyword_idea_metrics :=
      { avg_monthly_searches := none
        competition_name := "UNKNOWN".toList
        low_top_of_page_bid_micros := 0
        high_top_of_page_bid_micros := 0 } }

/-- Witness for C4: the filter characterisation at threshold 100 on a
two-element list (one idea above threshold, one with absent volume). -/
theorem filtered_ideas_spec_witness :
    (filtered_ideas [sampleIdeaHigh, sampleIdeaNoVolume] 100).Sublist
        [sampleIdeaHigh, sampleIdeaNoVolume] ∧
    (∀ idea ∈ filtered_ideas [sampleIdeaHigh, sampleIdeaNoVolume] 100,
      (100 : Int) ≤ (orZero idea.keyword_idea_metrics.avg_monthly_searches : Int)) ∧
    (∀ idea : KeywordIdea,
      (100 : Int) ≤ (orZero idea.keyword_idea_metrics.avg_monthly_searches : Int) →
      (filtered_ideas [sampleIdeaHigh, sampleIdeaNoVolume] 100).count idea
        = [sampleIdeaHigh, sampleIdeaNoVolume].count idea) :=
  filtered_ideas_spec [sampleIdeaHigh, sampleIdeaNoVolume] 100 (by decide)

/-- C5: the volume filter is idempotent at a fixed threshold. -/
theorem filtered_ideas_idempotent (raw_ideas : List KeywordIdea) (min_volume : Int) :
    filtered_ideas (filtered_ideas raw_ideas min_volume) min_volume
      = filtered_ideas raw_ideas min_volume := by
  simp [filtered_ideas, List.filter_filter]

/-- Outcome of the Theme Advisor call as seen by the `try` block of
`get_strategic_themes_from_llm`: either some step (the API call, the JSON
parse, or reading the "themes" key of a non-object) raised an exception,
or a JSON object was parsed whose "themes" key may be absent. -/
inductive LLMCall where
  | raised : LLMCall
  | returned : Option (List Str) → LLMCall

/-- `get_strategic_themes_from_llm` from src/keyword_tool.py, abstracted over
the external call outcome: exceptions are caught and replaced by the fixed
fallback theme list; a parsed object yields `json_response.get("themes", [])`.
The function is total: the pipeline continues in every case. -/
def get_strategic_themes_from_llm : LLMCall → List Str
  | .raised =>
      ["General".toList, "Competitors".toList, "Local Searches".toList,
        "Equipment".toList, "Questions".toList]
  | .returned themes => themes.getD []

/-- C7: whenever the Theme Advisor call raises or its response fails to
parse, the function returns exactly the fixed five-element fallback list
(and returns normally, so the pipeline continues). -/
theorem llm_fallback_on_error :
    get_strategic_themes_from_llm .raised
      = ["General".toList, "Competitors".toList, "Local Searches".toList,
          "Equipment".toList, "Questions".toList] := rfl

/-- One row of the AdGroupPlan: the dict literal appended at lines 137-143 of
src/keyword_tool.py.  CPC values are micros divided by 1000000 when the micros
field is truthy (nonzero), else 0.0. -/
structure AdGroupRow where
  keyword : Str
  avg_monthly_searches : Nat
  competition : Str
  low_cpc : ℚ
  high_cpc : ℚ
  deriving DecidableEq

/-- Builds the row appended to `ad_groups[ad_group_name]` for one idea. -/
def buildRow (idea : KeywordIdea) : AdGroupRow :=
  { keyword := idea.text
    avg_monthly_searches := orZero idea.keyword_idea_metrics.avg_monthly_searches
    competition := idea.keyword_idea_metrics.competition_name
    low_cpc :=
      if idea.keyword_idea_metrics.low_top_of_page_bid_micros ≠ 0 then
        (idea.keyword_idea_metrics.low_top_of_page_bid_micros : ℚ) / 1000000
      else 0
    high_cpc :=
      if idea.keyword_idea_metrics.high_top_of_page_bid_micros ≠ 0 then
        (idea.keyword_idea_metrics.high_top_of_page_bid_micros : ℚ) / 1000000
      else 0 }

/-- The classifier call of the bucketing loop. -/
def classifyIdea (brand_name : Str) (competitor_names locations llm_themes : List Str)
    (idea : KeywordIdea) : Str :=
  get_ad_group_for_keyword idea.text brand_name competitor_names locations llm_themes

/-- `defaultdict(list)` append `d[k].append(v)`: keys keep insertion order,
values keep append order. -/
def dictAppend : List (Str × List AdGroupRow) → Str → AdGroupRow → List (Str × List AdGroupRow)
  | [], k, v => [(k, [v])]
  | (k₀, vs) :: rest, k, v =>
    if k₀ = k then (k₀, vs ++ [v]) :: rest else (k₀, vs) :: dictAppend rest k v

/-- Dictionary lookup with the defaultdict default `[]`. -/
def lookupD : List (Str × List AdGroupRow) → Str → List AdGroupRow
  | [], _ => []
  | (k₀, vs) :: rest, k => if k₀ = k then vs else lookupD rest k

/-- All rows stored in the dictionary, in key order then append order. -/
def dictValuesFlat : List (Str × List AdGroupRow) → List AdGroupRow
  | [] => []
  | (_, vs) :: rest => vs ++ dictValuesFlat rest

/-- The bucketing loop of src/keyword_tool.py (lines 133-143): fold the
filtered ideas through the classifier into a `defaultdict(list)`. -/
def ad_groups (brand_name : Str) (competitor_names locations llm_themes : List Str)
    (ideas : List KeywordIdea) : List (Str × List AdGroupRow) :=
  ideas.foldl
    (fun d idea =>
      dictAppend d (classifyIdea brand_name competitor_names locations llm_themes idea)
        (buildRow idea))
    []

/-- Appending under key `k` extends bucket `k` by one row and leaves every
other bucket unchanged. -/
theorem lookupD_dictAppend (d : List (Str × List AdGroupRow)) (k : Str) (v : AdGroupRow)
    (k₁ : Str) :
    lookupD (dictAppend d k v) k₁
      = if k = k₁ then lookupD d k₁ ++ [v] else lookupD d k₁ := by
  induction d with
  | nil =>
    by_cases h : k = k₁ <;> simp [dictAppend, lookupD, h]
  | cons p rest ih =>
    obtain ⟨k₀, vs⟩ := p
    by_cases h0 : k₀ = k
    · subst h0
      by_cases h1 : k₀ = k₁ <;> simp [dictAppend, lookupD, h1]
    · by_cases h1 : k₀ = k₁
      · subst h1
        have hne : ¬ k = k₀ := fun h => h0 h.symm
        simp [dictAppend, lookupD, h0, hne]
      · simp [dictAppend, lookupD, h0, h1, ih]

/-- Appending one row adds exactly that row to the stored multiset. -/
theorem dictValuesFlat_dictAppend (d : List (Str × List AdGroupRow)) (k : Str)
    (v : AdGroupRow) :
    (dictValuesFlat (dictAppend d k v)).Perm (dictValuesFlat d ++ [v]) := by
  induction d with
  | nil => simp [dictAppend, dictValuesFlat]
  | cons p rest ih =>
    obtain ⟨k₀, vs⟩ := p
    by_cases h0 : k₀ = k
    · subst h0
      simp only [dictAppend, if_pos rfl, dictValuesFlat]
      have h := List.Perm.append_left vs
        (@List.perm_append_comm _ [v] (dictValuesFlat rest))
      simpa [List.append_assoc] using h
    · simp only [dictAppend, if_neg h0, dictValuesFlat]
      have h := List.Perm.append_left vs ih
      simpa [List.append_assoc] using h

/-- Bucket contents after the fold: the initial bucket followed by the rows of
the ideas classified to this bucket, in input order. -/
theorem lookupD_ad_groups_fold (brand_name : Str)
    (competitor_names locations llm_themes : List Str) (ideas : List KeywordIdea)
    (d : List (Str × List AdGroupRow)) (name : Str) :
    lookupD
      (ideas.foldl
        (fun d idea =>
          dictAppend d (classifyIdea brand_name competitor_names locations llm_themes idea)
            (buildRow idea))
        d) name
      = lookupD d name
        ++ (ideas.filter (fun idea =>
            decide (classifyIdea brand_name competitor_names locations llm_themes idea
              = name))).map buildRow := by
  induction ideas generalizing d with
  | nil => simp
  | cons i rest ih =>
    simp only [List.foldl_cons, List.filter_cons]
    by_cases hc : classifyIdea brand_name competitor_names locations llm_themes i = name
    · rw [ih, lookupD_dictAppend]
      simp [hc]
    · rw [ih, lookupD_dictAppend]
      simp [hc]

/-- Rows stored after the fold: a permutation of the initial rows followed by
one row per classified idea. -/
theorem dictValuesFlat_ad_groups_fold (brand_name : Str)
    (competitor_names locations llm_themes : List Str) (ideas : List KeywordIdea)
    (d : List (Str × List AdGroupRow)) :
    (dictValuesFlat
      (ideas.foldl
        (fun d idea =>
          dictAppend d (classifyIdea brand_name competitor_names locations llm_themes idea)
            (buildRow idea))
        d)).Perm
      (dictValuesFlat d ++ ideas.map buildRow) := by
  induction ideas generalizing d with
  | nil => simp
  | cons i rest ih =>
    simp only [List.foldl_cons, List.map_cons]
    have h1 := ih
      (dictAppend d (classifyIdea brand_name competitor_names locations llm_themes i)
        (buildRow i))
    have h2 := dictValuesFlat_dictAppend d
      (classifyIdea brand_name competitor_names locations llm_themes i) (buildRow i)
    have h3 := List.Perm.append_right (rest.map buildRow) h2
    have h4 := h1.trans h3
    simpa [List.append_assoc] using h4

/-- C3: the bucketing stage is a partition of the filtered input.  The rows
stored across all buckets are exactly one row per filtered idea (no drops, no
duplicates, up to bucket grouping), and each bucket holds precisely the rows
of the ideas classified to it, in filtered-input order — so each idea lands in
exactly one bucket and insertion order is stable. -/
theorem ad_groups_partition (brand_name : Str)
    (competitor_names locations llm_themes : List Str) (ideas : List KeywordIdea) :
    (dictValuesFlat (ad_groups brand_name competitor_names locations llm_themes ideas)).Perm
        (ideas.map buildRow) ∧
    ∀ name : Str,
      lookupD (ad_groups brand_name competitor_names locations llm_themes ideas) name
        = (ideas.filter (fun idea =>
            decide (classifyIdea brand_name competitor_names locations llm_themes idea
              = name))).map buildRow := by
  constructor
  · have h := dictValuesFlat_ad_groups_fold brand_name competitor_names locations llm_themes
      ideas []
    simpa [ad_groups, dictValuesFlat] using h
  · intro name
    have h := lookupD_ad_groups_fold brand_name competitor_names locations llm_themes
      ideas [] name
    simpa [ad_groups, lookupD] using h

/-- An idea whose low bid is present (1.0 currency units) but whose high bid
is absent: the built row then has low_cpc above high_cpc. -/
def lowOnlyBidIdea : KeywordIdea :=
  { text := "spin bike".toList
    keyword_idea_metrics :=
      { avg_monthly_searches := some 100
        competition_name := "LOW".toList
        low_top_of_page_bid_micros := 1000000
        high_top_of_page_bid_micros := 0 } }

/-- Counterexample to C8 as stated: with a present low bid and an absent high
bid, the built record violates low_cpc ≤ high_cpc (it has low_cpc = 1 and
high_cpc = 0). -/
theorem buildRow_cpc_counterexample :
    (buildRow lowOnlyBidIdea).low_cpc = 1 ∧ (buildRow lowOnlyBidIdea).high_cpc = 0 ∧
      ¬ (buildRow lowOnlyBidIdea).low_cpc ≤ (buildRow lowOnlyBidIdea).high_cpc := by
  refine ⟨?_, ?_, ?_⟩ <;> norm_num [buildRow, lowOnlyBidIdea]

/-- C8 amended: every built record unconditionally has 0 ≤ low_cpc and
0 ≤ high_cpc; low_cpc ≤ high_cpc additionally holds whenever the source
metrics satisfy low micros ≤ high micros (absent read as 0) — in particular
whenever a present low bid comes with a present high bid at least as large. -/
theorem buildRow_cpc_invariant (idea : KeywordIdea) :
    0 ≤ (buildRow idea).low_cpc ∧ 0 ≤ (buildRow idea).high_cpc ∧
      (idea.keyword_idea_metrics.low_top_of_page_bid_micros
          ≤ idea.keyword_idea_metrics.high_top_of_page_bid_micros →
        (buildRow idea).low_cpc ≤ (buildRow idea).high_cpc) := by
  refine ⟨?_, ?_, ?_⟩
  · simp only [buildRow]
    split_ifs <;> positivity
  · simp only [buildRow]
    split_ifs <;> positivity
  · intro h
    simp only [buildRow]
    split_ifs with h1 h2
    · have hc : (idea.keyword_idea_metrics.low_top_of_page_bid_micros : ℚ)
          ≤ (idea.keyword_idea_metrics.high_top_of_page_bid_micros : ℚ) := by
        exact_mod_cast h
      linarith
    · exfalso
      push_neg at h2
      omega
    · positivity
    · exact le_refl 0

/-- Witness for the amended C8: a record with bids 1.0 and 2.0 satisfies both
non-negativity bounds, and its ordered micros give low_cpc ≤ high_cpc. -/
theorem buildRow_cpc_invariant_witness :
    0 ≤ (buildRow sampleIdeaHigh).low_cpc ∧ 0 ≤ (buildRow sampleIdeaHigh).high_cpc ∧
      (buildRow sampleIdeaHigh).low_cpc ≤ (buildRow sampleIdeaHigh).high_cpc :=
  ⟨(buildRow_cpc_invariant sampleIdeaHigh).1,
    (buildRow_cpc_invariant sampleIdeaHigh).2.1,
    (buildRow_cpc_invariant sampleIdeaHigh).2.2 (by decide)⟩

/-- Stable descending insertion by `avg_monthly_searches`: the inserted row
goes before the first row whose volume is not larger — so before rows it ties
with, matching Python's stable `sorted(..., reverse=True)` where the inserted
row precedes its ties in the input. -/
def insertByVolumeDesc (row : AdGroupRow) : List AdGroupRow → List AdGroupRow
  | [] => [row]
  | r :: rest =>
    if r.avg_monthly_searches ≤ row.avg_monthly_searches then row :: r :: rest
    else r :: insertByVolumeDesc row rest

/-- `sorted(keywords_data, key=lambda x: x['avg_monthly_searches'], reverse=True)`:
stable sort, descending volume.  Python's sort is the unique stable sort for
this key, and this insertion sort is stable (proved below), so they agree. -/
def sortByVolumeDesc : List AdGroupRow → List AdGroupRow
  | [] => []
  | r :: rest => insertByVolumeDesc r (sortByVolumeDesc rest)

/-- Stable ascending insertion of a bucket name, by lexicographic order. -/
def insertKeyAsc (name : Str) : List Str → List Str
  | [] => [name]
  | k :: rest => if name ≤ k then name :: k :: rest else k :: insertKeyAsc name rest

/-- `sorted(ad_groups.keys())`: bucket names in lexicographic order. -/
def sortKeysAsc : List Str → List Str
  | [] => []
  | k :: rest => insertKeyAsc k (sortKeysAsc rest)

/-- `print_structured_plan` from src/keyword_tool.py, modelled as the emitted
report structure: the sequence of (bucket name, rows in print order) in the
order the loop prints them.  The textual row formatting (currency symbol,
column widths) carries no ordering information and is not modelled. -/
def print_structured_plan (ad_groups_d : List (Str × List AdGroupRow)) :
    List (Str × List AdGroupRow) :=
  (sortKeysAsc (ad_groups_d.map Prod.fst)).map
    (fun name => (name, sortByVolumeDesc (lookupD ad_groups_d name)))

/-- Inserting a row permutes consing it. -/
theorem insertByVolumeDesc_perm (row : AdGroupRow) (l : List AdGroupRow) :
    (insertByVolumeDesc row l).Perm (row :: l) := by
  induction l with
  | nil => exact List.Perm.refl _
  | cons r rest ih =>
    by_cases hif : r.avg_monthly_searches ≤ row.avg_monthly_searches
    · simp [insertByVolumeDesc, hif]
    · rw [insertByVolumeDesc, if_neg hif]
      exact (ih.cons r).trans (List.Perm.swap row r rest)

/-- The descending sort is a permutation of its input. -/
theorem sortByVolumeDesc_perm (l : List AdGroupRow) : (sortByVolumeDesc l).Perm l := by
  induction l with
  | nil => exact List.Perm.refl _
  | cons r rest ih =>
    exact (insertByVolumeDesc_perm r (sortByVolumeDesc rest)).trans (ih.cons r)

/-- Inserting into a descending-sorted list keeps it descending-sorted. -/
theorem insertByVolumeDesc_sorted (row : AdGroupRow) (l : List AdGroupRow)
    (h : List.Sorted (fun a b : AdGroupRow =>
      b.avg_monthly_searches ≤ a.avg_monthly_searches) l) :
    List.Sorted (fun a b : AdGroupRow =>
      b.avg_monthly_searches ≤ a.avg_monthly_searches) (insertByVolumeDesc row l) := by
  induction l with
  | nil => simp [insertByVolumeDesc]
  | cons r rest ih =>
    obtain ⟨hr, hrest⟩ := List.pairwise_cons.mp h
    by_cases hif : r.avg_monthly_searches ≤ row.avg_monthly_searches
    · rw [insertByVolumeDesc, if_pos hif]
      refine List.Pairwise.cons ?_ h
      intro y hy
      rcases List.mem_cons.mp hy with hy | hy
      · subst hy; exact hif
      · exact le_trans (hr y hy) hif
    · rw [insertByVolumeDesc, if_neg hif]
      refine List.Pairwise.cons ?_ (ih hrest)
      intro y hy
      have hy2 : y ∈ row :: rest := (insertByVolumeDesc_perm row rest).mem_iff.mp hy
      rcases List.mem_cons.mp hy2 with hy2 | hy2
      · subst hy2; exact le_of_not_le hif
      · exact hr y hy2

/-- The rows of a bucket are printed in descending volume order. -/
theorem sortByVolumeDesc_sorted (l : List AdGroupRow) :
    List.Sorted (fun a b : AdGroupRow =>
      b.avg_monthly_searches ≤ a.avg_monthly_searches) (sortByVolumeDesc l) := by
  induction l with
  | nil => simp [sortByVolumeDesc]
  | cons r rest ih => exact insertByVolumeDesc_sorted r (sortByVolumeDesc rest) ih

/-- Stability of the insertion step: rows of any fixed volume keep their
relative order, because the inserted row never passes a row it ties with. -/
theorem insertByVolumeDesc_filter (v : Nat) (row : AdGroupRow) (l : List AdGroupRow) :
    (insertByVolumeDesc row l).filter (fun r => decide (r.avg_monthly_searches = v))
      = (row :: l).filter (fun r => decide (r.avg_monthly_searches = v)) := by
  induction l with
  | nil => rfl
  | cons r rest ih =>
    by_cases hif : r.avg_monthly_searches ≤ row.avg_monthly_searches
    · rw [insertByVolumeDesc, if_pos hif]
    · rw [insertByVolumeDesc, if_neg hif]
      by_cases hr : r.avg_monthly_searches = v
      · have hx : ¬ row.avg_monthly_searches = v := by omega
        simp [List.filter_cons, hr, hx, ih]
      · simp [List.filter_cons, hr, ih]

/-- Stability of the descending sort: for every volume value, the
sub-sequence of rows with that volume is unchanged. -/
theorem sortByVolumeDesc_filter (v : Nat) (l : List AdGroupRow) :
    (sortByVolumeDesc l).filter (fun r => decide (r.avg_monthly_searches = v))
      = l.filter (fun r => decide (r.avg_monthly_searches = v)) := by
  induction l with
  | nil => rfl
  | cons r rest ih =>
    rw [sortByVolumeDesc, insertByVolumeDesc_filter]
    simp [List.filter_cons, ih]

/-- Inserting a bucket name permutes consing it. -/
theorem insertKeyAsc_perm (name : Str) (l : List Str) :
    (insertKeyAsc name l).Perm (name :: l) := by
  induction l with
  | nil => exact List.Perm.refl _
  | cons k rest ih =>
    by_cases hif : name ≤ k
    · simp [insertKeyAsc, hif]
    · rw [insertKeyAsc, if_neg hif]
      exact (ih.cons k).trans (List.Perm.swap name k rest)

/-- The key sort is a permutation of the key list. -/
theorem sortKeysAsc_perm (l : List Str) : (sortKeysAsc l).Perm l := by
  induction l with
  | nil => exact List.Perm.refl _
  | cons k rest ih =>
    exact (insertKeyAsc_perm k (sortKeysAsc rest)).trans (ih.cons k)

/-- Inserting into an ascending-sorted key list keeps it sorted. -/
theorem insertKeyAsc_sorted (name : Str) (l : List Str)
    (h : List.Sorted (fun a b : Str => a ≤ b) l) :
    List.Sorted (fun a b : Str => a ≤ b) (insertKeyAsc name l) := by
  induction l with
  | nil => simp [insertKeyAsc]
  | cons k rest ih =>
    obtain ⟨hk, hrest⟩ := List.pairwise_cons.mp h
    by_cases hif : name ≤ k
    · rw [insertKeyAsc, if_pos hif]
      refine List.Pairwise.cons ?_ h
      intro y hy
      rcases List.mem_cons.mp hy with hy | hy
      · subst hy; exact hif
      · exact le_trans hif (hk y hy)
    · rw [insertKeyAsc, if_neg hif]
      refine List.Pairwise.cons ?_ (ih hrest)
      intro y hy
      have hy2 : y ∈ name :: rest := (insertKeyAsc_perm name rest).mem_iff.mp hy
      rcases List.mem_cons.mp hy2 with hy2 | hy2
      · subst hy2; exact le_of_not_le hif
      · exact hk y hy2

/-- Bucket names come out in lexicographic order. -/
theorem sortKeysAsc_sorted (l : List Str) :
    List.Sorted (fun a b : Str => a ≤ b) (sortKeysAsc l) := by
  induction l with
  | nil => simp [sortKeysAsc]
  | cons k rest ih => exact insertKeyAsc_sorted k (sortKeysAsc rest) ih

/-- The report's bucket-name sequence is the sorted key list. -/
theorem print_structured_plan_names (ad_groups_d : List (Str × List AdGroupRow)) :
    (print_structured_plan ad_groups_d).map Prod.fst
      = sortKeysAsc (ad_groups_d.map Prod.fst) := by
  simp only [print_structured_plan, List.map_map]
  have hcomp : (Prod.fst ∘ fun name => (name, sortByVolumeDesc (lookupD ad_groups_d name)))
      = id := by
    funext name; rfl
  rw [hcomp, List.map_id]

/-- C6: the renderer emits buckets in lexicographic order of bucket name
(every stored bucket name exactly once), and each emitted bucket holds a
permutation of its stored rows sorted by volume descending, stably: rows of
equal volume keep their stored relative order. -/
theorem print_structured_plan_order (ad_groups_d : List (Str × List AdGroupRow)) :
    ((print_structured_plan ad_groups_d).map Prod.fst).Perm (ad_groups_d.map Prod.fst) ∧
    List.Sorted (fun a b : Str => a ≤ b)
      ((print_structured_plan ad_groups_d).map Prod.fst) ∧
    ∀ name rows, (name, rows) ∈ print_structured_plan ad_groups_d →
      rows.Perm (lookupD ad_groups_d name) ∧
      List.Sorted (fun a b : AdGroupRow =>
        b.avg_monthly_searches ≤ a.avg_monthly_searches) rows ∧
      ∀ v : Nat,
        rows.filter (fun r => decide (r.avg_monthly_searches = v))
          = (lookupD ad_groups_d name).filter
              (fun r => decide (r.avg_monthly_searches = v)) := by
  refine ⟨?_, ?_, ?_⟩
  · rw [print_structured_plan_names]
    exact sortKeysAsc_perm _
  · rw [print_structured_plan_names]
    exact sortKeysAsc_sorted _
  · intro name rows hmem
    obtain ⟨a, _ha, heq⟩ := List.mem_map.mp hmem
    obtain ⟨rfl, rfl⟩ := Prod.mk.injEq .. |>.mp heq
    exact ⟨(sortByVolumeDesc_perm _), sortByVolumeDesc_sorted _,
      fun v => sortByVolumeDesc_filter v _⟩
